import Mathlib

/-!
Shallow embedding of the `AIWalletManager` Solidity contract
(`contracts` of the polkadot-mcp repository): a custodial balance ledger
with a single owner, a set of owner-delegated agents, open deposits and
authorized withdrawals that push value through an external transfer
collaborator.

Modelling conventions:
* An account (Solidity `address`) is a `Nat`; the null identity
  `address(0)` is `0`.
* `uint256` amounts are `Nat`s; Solidity ^0.8 checked arithmetic is made
  explicit: the addition in `deposit` aborts with `WErr.Overflow` when the
  new balance would exceed `2 ^ 256 - 1` (a Solidity `Panic(0x11)` revert).
  The subtraction in `withdraw` is guarded by the balance `require`, so it
  never underflows.
* A `require` failure / revert is `Except.error e`: the caller's state is
  unchanged (the EVM rolls the whole call back, events included).
  `applyResult` realizes this convention.
* The external value transfer in `withdraw`
  (`account.call{value: amount}("")`) is an opaque collaborator
  `ext : LedgerState → Bool × LedgerState`: it observes the contract state
  at the moment of the call (possibly re-entering) and returns its
  success flag together with the state its own effects produce. On a
  `false` flag the whole `withdraw` reverts (`require(success, ...)`).
* Emitted events are accumulated newest-first in `LedgerState.events`.
-/

namespace AIWalletManager

/-- An externally supplied identity (a Solidity `address`); `0` is the null
identity `address(0)`. -/
abbrev Account := Nat

/-- Largest value of a Solidity `uint256`. -/
def U256MAX : Nat := 2 ^ 256 - 1

/-- The events the contract emits: `Deposit`, `Withdrawal`,
`AgentAuthorized`, `AgentDeauthorized`. -/
inductive Event where
  | Deposit (account : Account) (amount : Nat)
  | Withdrawal (account : Account) (amount : Nat)
  | AgentAuthorized (agent : Account)
  | AgentDeauthorized (agent : Account)
deriving DecidableEq, Repr

/-- The failure taxonomy: the contract's `require` messages mapped to
kinds, plus the Solidity ^0.8 checked-arithmetic abort (`Overflow`).
"Only owner can call this function" / "Not authorized" are `Unauthorized`;
"Amount must be greater than 0" / "Invalid ... address" are
`InvalidArgument`; "Insufficient balance" is `InsufficientBalance`;
"Transfer failed" is `TransferFailed`. -/
inductive WErr where
  | Unauthorized
  | InvalidArgument
  | InsufficientBalance
  | TransferFailed
  | Overflow
deriving DecidableEq, Repr

/-- The contract's storage (`balances`, `authorizedAgents`, `owner`)
together with the log of emitted events (newest first). The Solidity
mappings default to `0` / `false`, so they are total functions. -/
structure LedgerState where
  owner : Account
  balances : Account → Nat
  authorizedAgents : Account → Bool
  events : List Event

/-- Point update of a balance mapping (`balances[a] = v`). -/
def setBal (f : Account → Nat) (a : Account) (v : Nat) : Account → Nat :=
  fun b => if b = a then v else f b

/-- Point update of the agent mapping (`authorizedAgents[a] = v`). -/
def setAgent (f : Account → Bool) (a : Account) (v : Bool) : Account → Bool :=
  fun b => if b = a then v else f b

/-- The constructor: `owner = msg.sender`, empty mappings, no events. -/
def initState (deployer : Account) : LedgerState :=
  { owner := deployer
    balances := fun _ => 0
    authorizedAgents := fun _ => false
    events := [] }

/-- `deposit(account)` with `msg.value = amount`: requires
`msg.value > 0` and `account != address(0)`, then
`balances[account] += msg.value` (checked: aborts with `Overflow` past
`U256MAX`) and emits `Deposit(account, msg.value)`. No authorization
check; the sender is irrelevant to the effect. -/
def deposit (account : Account) (amount : Nat) (s : LedgerState) :
    Except WErr LedgerState :=
  if amount = 0 then .error .InvalidArgument
  else if account = 0 then .error .InvalidArgument
  else if U256MAX < s.balances account + amount then .error .Overflow
  else .ok { s with
    balances := setBal s.balances account (s.balances account + amount)
    events := Event.Deposit account amount :: s.events }

/-- `withdraw(account, amount)` called by `caller` (= `msg.sender`), with
the external transfer collaborator `ext`. The `onlyAuthorized` modifier
runs first (`msg.sender == owner || authorizedAgents[msg.sender]`), then
the requires on `amount`, `account` and the balance; then the balance is
decremented, THEN the external call executes against the decremented
state; if it reports failure the whole call reverts with `TransferFailed`,
else `Withdrawal(account, amount)` is emitted on top of whatever state the
external call produced. -/
def withdraw (ext : LedgerState → Bool × LedgerState)
    (caller account : Account) (amount : Nat) (s : LedgerState) :
    Except WErr LedgerState :=
  if caller = s.owner ∨ s.authorizedAgents caller = true then
    if amount = 0 then .error .InvalidArgument
    else if account = 0 then .error .InvalidArgument
    else if s.balances account < amount then .error .InsufficientBalance
    else
      let s1 : LedgerState :=
        { s with balances := setBal s.balances account (s.balances account - amount) }
      match ext s1 with
      | (false, _) => .error .TransferFailed
      | (true, s2) =>
          .ok { s2 with events := Event.Withdrawal account amount :: s2.events }
  else .error .Unauthorized

/-- `authorizeAgent(agent)` called by `caller`: `onlyOwner`, requires
`agent != address(0)`, sets `authorizedAgents[agent] = true` and emits
`AgentAuthorized(agent)`. -/
def authorizeAgent (caller agent : Account) (s : LedgerState) :
    Except WErr LedgerState :=
  if caller = s.owner then
    if agent = 0 then .error .InvalidArgument
    else .ok { s with
      authorizedAgents := setAgent s.authorizedAgents agent true
      events := Event.AgentAuthorized agent :: s.events }
  else .error .Unauthorized

/-- `deauthorizeAgent(agent)` called by `caller`: `onlyOwner`, no null
check, sets `authorizedAgents[agent] = false` and emits
`AgentDeauthorized(agent)`. -/
def deauthorizeAgent (caller agent : Account) (s : LedgerState) :
    Except WErr LedgerState :=
  if caller = s.owner then
    .ok { s with
      authorizedAgents := setAgent s.authorizedAgents agent false
      events := Event.AgentDeauthorized agent :: s.events }
  else .error .Unauthorized

/-- `transferOwnership(newOwner)` called by `caller`: `onlyOwner`,
requires `newOwner != address(0)`, sets `owner = newOwner`. No event. -/
def transferOwnership (caller newOwner : Account) (s : LedgerState) :
    Except WErr LedgerState :=
  if caller = s.owner then
    if newOwner = 0 then .error .InvalidArgument
    else .ok { s with owner := newOwner }
  else .error .Unauthorized

/-- `getBalance(account)`: pure read of the balance mapping. -/
def getBalance (s : LedgerState) (account : Account) : Nat :=
  s.balances account

/-- `isAuthorizedAgent(agent)`: pure read of the agent mapping. -/
def isAuthorizedAgent (s : LedgerState) (agent : Account) : Bool :=
  s.authorizedAgents agent

/-- `getOwner()`: pure read of the owner. -/
def getOwner (s : LedgerState) : Account :=
  s.owner

/-- EVM revert semantics: a failed call leaves the caller's state exactly
as it was; a successful call commits the returned state. -/
def applyResult (r : Except WErr LedgerState) (s : LedgerState) : LedgerState :=
  match r with
  | .ok s' => s'
  | .error _ => s

/-- One external transaction against the contract. A `withdraw` carries
the outcome the external transfer collaborator reports for that call
(a plain, non-re-entrant collaborator). -/
inductive Op where
  | deposit (account : Account) (amount : Nat)
  | withdraw (caller account : Account) (amount : Nat) (transferOk : Bool)
  | authorizeAgent (caller agent : Account)
  | deauthorizeAgent (caller agent : Account)
  | transferOwnership (caller newOwner : Account)
deriving DecidableEq, Repr

/-- The account whose balance entry an operation may touch. -/
def Op.balanceTarget : Op → Option Account
  | .deposit a _ => some a
  | .withdraw _ a _ _ => some a
  | _ => none

/-- Run one transaction: apply the operation, keeping the old state if it
reverts. -/
def stepOp (s : LedgerState) (op : Op) : LedgerState :=
  match op with
  | .deposit a m => applyResult (deposit a m s) s
  | .withdraw c a m ok =>
      applyResult (withdraw (fun t => (ok, t)) c a m s) s
  | .authorizeAgent c x => applyResult (authorizeAgent c x s) s
  | .deauthorizeAgent c x => applyResult (deauthorizeAgent c x s) s
  | .transferOwnership c d => applyResult (transferOwnership c d s) s

/-- Run a sequence of transactions from the freshly constructed contract. -/
def run (deployer : Account) (ops : List Op) : LedgerState :=
  ops.foldl stepOp (initState deployer)

/-- Sum of the amounts of all `Deposit` records in a log. -/
def depositedTotal : List Event → Nat
  | [] => 0
  | Event.Deposit _ m :: es => m + depositedTotal es
  | _ :: es => depositedTotal es

/-- Sum of the amounts of all `Withdrawal` records in a log. -/
def withdrawnTotal : List Event → Nat
  | [] => 0
  | Event.Withdrawal _ m :: es => m + withdrawnTotal es
  | _ :: es => withdrawnTotal es

/-- A small concrete scenario state, used by the witnesses: deployer/owner
is account 1, 100 units were deposited to account 2, and account 3 was
authorized as an agent. -/
def demoState : LedgerState :=
  run 1 [Op.deposit 2 100, Op.authorizeAgent 1 3]

/-! ### Helper lemmas -/

theorem setBal_same (f : Account → Nat) (a : Account) (v : Nat) :
    setBal f a v a = v := by
  simp [setBal]

theorem setBal_other (f : Account → Nat) (a : Account) (v : Nat) {b : Account}
    (h : b ≠ a) : setBal f a v b = f b := by
  simp [setBal, h]

theorem sum_setBal (S : Finset Account) (f : Account → Nat) (a : Account)
    (v : Nat) (ha : a ∈ S) :
    (∑ b ∈ S, setBal f a v b) + f a = (∑ b ∈ S, f b) + v := by
  have h1 : (∑ b ∈ S, setBal f a v b)
      = setBal f a v a + ∑ b ∈ S.erase a, setBal f a v b :=
    (Finset.add_sum_erase S _ ha).symm
  have h2 : (∑ b ∈ S.erase a, setBal f a v b) = ∑ b ∈ S.erase a, f b :=
    Finset.sum_congr rfl fun b hb => setBal_other f a v (Finset.ne_of_mem_erase hb)
  have h3 : f a + ∑ b ∈ S.erase a, f b = ∑ b ∈ S, f b :=
    Finset.add_sum_erase S f ha
  rw [h1, h2, setBal_same]
  omega

/-- The conservation invariant relative to a set `S` of accounts: every
account outside `S` has balance `0`, and the total balance over `S`
plus everything recorded as withdrawn equals everything recorded as
deposited. -/
def conservedOn (S : Finset Account) (s : LedgerState) : Prop :=
  (∀ a, a ∉ S → s.balances a = 0) ∧
  (∑ b ∈ S, s.balances b) + withdrawnTotal s.events = depositedTotal s.events

theorem stepOp_conservedOn (S : Finset Account) (s : LedgerState) (op : Op)
    (hT : ∀ a, op.balanceTarget = some a → a ∈ S)
    (h : conservedOn S s) : conservedOn S (stepOp s op) := by
  obtain ⟨h0, hsum⟩ := h
  cases op with
  | deposit a m =>
      have haS : a ∈ S := hT a rfl
      by_cases hm : m = 0
      · simpa [stepOp, deposit, hm, applyResult] using ⟨h0, hsum⟩
      by_cases hacc : a = 0
      · simpa [stepOp, deposit, hm, hacc, applyResult] using ⟨h0, hsum⟩
      by_cases hov : U256MAX < s.balances a + m
      · simpa [stepOp, deposit, hm, hacc, hov, applyResult] using ⟨h0, hsum⟩
      refine ⟨?_, ?_⟩
      · intro b hb
        have hba : b ≠ a := fun e => hb (e ▸ haS)
        simpa [stepOp, deposit, hm, hacc, hov, applyResult, setBal_other _ _ _ hba]
          using h0 b hb
      · have hkey := sum_setBal S s.balances a (s.balances a + m) haS
        simp only [stepOp, deposit, hm, hacc, hov, if_neg, if_false, applyResult,
          depositedTotal, withdrawnTotal]
        simp only [stepOp, deposit, applyResult] at hkey ⊢
        omega
  | withdraw c a m ok =>
      have haS : a ∈ S := hT a rfl
      by_cases hauth : c = s.owner ∨ s.authorizedAgents c = true
      · by_cases hm : m = 0
        · simpa [stepOp, withdraw, hauth, hm, applyResult] using ⟨h0, hsum⟩
        by_cases hacc : a = 0
        · simpa [stepOp, withdraw, hauth, hm, hacc, applyResult] using ⟨h0, hsum⟩
        by_cases hlt : s.balances a < m
        · simpa [stepOp, withdraw, hauth, hm, hacc, hlt, applyResult] using ⟨h0, hsum⟩
        cases ok with
        | false => simpa [stepOp, withdraw, hauth, hm, hacc, hlt, applyResult]
            using ⟨h0, hsum⟩
        | true =>
            refine ⟨?_, ?_⟩
            · intro b hb
              have hba : b ≠ a := fun e => hb (e ▸ haS)
              simpa [stepOp, withdraw, hauth, hm, hacc, hlt, applyResult,
                setBal_other _ _ _ hba] using h0 b hb
            · have hkey := sum_setBal S s.balances a (s.balances a - m) haS
              simp only [stepOp, withdraw, hauth, hm, hacc, hlt, if_true, if_neg,
                if_false, applyResult, depositedTotal, withdrawnTotal]
              simp only [stepOp, withdraw, applyResult] at hkey ⊢
              omega
      · simpa [stepOp, withdraw, hauth, applyResult] using ⟨h0, hsum⟩
  | authorizeAgent c x =>
      by_cases hc : c = s.owner
      · by_cases hx : x = 0
        · simpa [stepOp, authorizeAgent, hc, hx, applyResult] using ⟨h0, hsum⟩
        · simpa [stepOp, authorizeAgent, hc, hx, applyResult, depositedTotal,
            withdrawnTotal] using ⟨h0, hsum⟩
      · simpa [stepOp, authorizeAgent, hc, applyResult] using ⟨h0, hsum⟩
  | deauthorizeAgent c x =>
      by_cases hc : c = s.owner
      · simpa [stepOp, deauthorizeAgent, hc, applyResult, depositedTotal,
          withdrawnTotal] using ⟨h0, hsum⟩
      · simpa [stepOp, deauthorizeAgent, hc, applyResult] using ⟨h0, hsum⟩
  | transferOwnership c d =>
      by_cases hc : c = s.owner
      · by_cases hd : d = 0
        · simpa [stepOp, transferOwnership, hc, hd, applyResult] using ⟨h0, hsum⟩
        · simpa [stepOp, transferOwnership, hc, hd, applyResult] using ⟨h0, hsum⟩
      · simpa [stepOp, transferOwnership, hc, applyResult] using ⟨h0, hsum⟩

theorem foldl_conservedOn (S : Finset Account) :
    ∀ (ops : List Op) (s : LedgerState),
      (∀ op ∈ ops, ∀ a, op.balanceTarget = some a → a ∈ S) →
      conservedOn S s → conservedOn S (ops.foldl stepOp s)
  | [], _, _, h => h
  | op :: ops, s, hT, h =>
      foldl_conservedOn S ops (stepOp s op)
        (fun o ho => hT o (List.mem_cons_of_mem op ho))
        (stepOp_conservedOn S s op (hT op (List.mem_cons_self op ops)) h)

theorem initState_conservedOn (S : Finset Account) (deployer : Account) :
    conservedOn S (initState deployer) := by
  constructor
  · intro a _
    rfl
  · simp [initState, depositedTotal, withdrawnTotal]

/-- C1: starting from the initial state (empty balances), after any
sequence of operations the sum of all recorded balances (taken over any
finite set `S` covering every account a deposit or withdraw targeted;
all accounts outside `S` provably hold `0`) equals the total of the
emitted `Deposit` records minus the total of the emitted `Withdrawal`
records — which are exactly the successful deposit and withdraw calls.
No operation creates or destroys recorded value. -/
theorem run_conservation (deployer : Account) (ops : List Op) (S : Finset Account)
    (hS : ∀ op ∈ ops, ∀ a, op.balanceTarget = some a → a ∈ S) :
    (∀ a, a ∉ S → (run deployer ops).balances a = 0) ∧
    (∑ b ∈ S, (run deployer ops).balances b) + withdrawnTotal (run deployer ops).events
      = depositedTotal (run deployer ops).events ∧
    (∑ b ∈ S, (run deployer ops).balances b)
      = depositedTotal (run deployer ops).events - withdrawnTotal (run deployer ops).events ∧
    withdrawnTotal (run deployer ops).events ≤ depositedTotal (run deployer ops).events := by
  have h := foldl_conservedOn S ops (initState deployer) hS
    (initState_conservedOn S deployer)
  obtain ⟨h0, hsum⟩ := h
  simp only [run]
  exact ⟨h0, hsum, by omega, by omega⟩

/-- Witness for C1 at a concrete trace: deposit 100 to account 2, then
the owner withdraws 40 with the transfer succeeding. -/
theorem run_conservation_witness :
    (∀ a, a ∉ ({2} : Finset Account) →
      (run 1 [Op.deposit 2 100, Op.withdraw 1 2 40 true]).balances a = 0) ∧
    (∑ b ∈ ({2} : Finset Account),
        (run 1 [Op.deposit 2 100, Op.withdraw 1 2 40 true]).balances b)
      + withdrawnTotal (run 1 [Op.deposit 2 100, Op.withdraw 1 2 40 true]).events
      = depositedTotal (run 1 [Op.deposit 2 100, Op.withdraw 1 2 40 true]).events ∧
    (∑ b ∈ ({2} : Finset Account),
        (run 1 [Op.deposit 2 100, Op.withdraw 1 2 40 true]).balances b)
      = depositedTotal (run 1 [Op.deposit 2 100, Op.withdraw 1 2 40 true]).events
        - withdrawnTotal (run 1 [Op.deposit 2 100, Op.withdraw 1 2 40 true]).events ∧
    withdrawnTotal (run 1 [Op.deposit 2 100, Op.withdraw 1 2 40 true]).events
      ≤ depositedTotal (run 1 [Op.deposit 2 100, Op.withdraw 1 2 40 true]).events :=
  run_conservation 1 [Op.deposit 2 100, Op.withdraw 1 2 40 true] {2} (by
    intro op hop a ha
    simp only [List.mem_cons, List.not_mem_nil, or_false] at hop
    rcases hop with h | h <;> subst h <;>
      simp only [Op.balanceTarget, Option.some.injEq] at ha <;>
      simp [← ha])

/-- After the authorization and input guards pass, `withdraw` is exactly:
consult the external collaborator at the decremented state, then commit or
revert on its flag. -/
theorem withdraw_eq_match (ext : LedgerState → Bool × LedgerState)
    (caller account : Account) (amount : Nat) (s : LedgerState)
    (hauth : caller = s.owner ∨ s.authorizedAgents caller = true)
    (hm : amount ≠ 0) (hacc : account ≠ 0)
    (hge : ¬ s.balances account < amount) :
    withdraw ext caller account amount s =
      match ext { s with
        balances := setBal s.balances account (s.balances account - amount) } with
      | (false, _) => .error .TransferFailed
      | (true, s2) =>
          .ok { s2 with events := Event.Withdrawal account amount :: s2.events } := by
  simp only [withdraw]
  rw [if_pos hauth, if_neg hm, if_neg hacc, if_neg hge]

/-- A guarded `withdraw` with a plain succeeding collaborator commits the
decrement and logs the `Withdrawal`. -/
theorem withdraw_ok (caller account : Account) (amount : Nat) (s : LedgerState)
    (hauth : caller = s.owner ∨ s.authorizedAgents caller = true)
    (hacc : account ≠ 0) (hpos : 0 < amount)
    (hle : amount ≤ s.balances account) :
    withdraw (fun t => (true, t)) caller account amount s =
      .ok { s with
        balances := setBal s.balances account (s.balances account - amount)
        events := Event.Withdrawal account amount :: s.events } := by
  rw [withdraw_eq_match (fun t => (true, t)) caller account amount s hauth
    (by omega) hacc (not_lt.mpr hle)]

/-- A caller that is neither the owner nor an authorized agent cannot
withdraw, whatever the collaborator, target and amount. -/
theorem withdraw_unauthorized (s : LedgerState) (c : Account)
    (h1 : c ≠ s.owner) (h2 : s.authorizedAgents c = false)
    (ext : LedgerState → Bool × LedgerState) (a : Account) (m : Nat) :
    withdraw ext c a m s = .error .Unauthorized := by
  have h : ¬ (c = s.owner ∨ s.authorizedAgents c = true) := by simp [h1, h2]
  simp only [withdraw]
  rw [if_neg h]

/-- C2: for an authorized caller, a non-null account and an amount within
the recorded balance, if the external transfer collaborator reports
failure at the state it is invoked on, `withdraw` fails with
`TransferFailed` and the committed state is exactly the pre-call state:
the decrement does not survive and no `Withdrawal` record is emitted. -/
theorem withdraw_transferFailed_rollback (ext : LedgerState → Bool × LedgerState)
    (caller account : Account) (amount : Nat) (s : LedgerState)
    (hauth : caller = s.owner ∨ s.authorizedAgents caller = true)
    (hacc : account ≠ 0) (hpos : 0 < amount)
    (hle : amount ≤ s.balances account)
    (hfail : (ext { s with
      balances := setBal s.balances account (s.balances account - amount) }).1
        = false) :
    withdraw ext caller account amount s = .error .TransferFailed ∧
    applyResult (withdraw ext caller account amount s) s = s ∧
    (applyResult (withdraw ext caller account amount s) s).balances account
      = s.balances account ∧
    (applyResult (withdraw ext caller account amount s) s).events = s.events := by
  have key : withdraw ext caller account amount s = .error .TransferFailed := by
    rw [withdraw_eq_match ext caller account amount s hauth (by omega) hacc
      (not_lt.mpr hle)]
    rcases hext : ext { s with
      balances := setBal s.balances account (s.balances account - amount) }
      with ⟨b, t⟩
    rw [hext] at hfail
    cases b
    · rfl
    · exact absurd hfail (by simp)
  exact ⟨key, by rw [key]; rfl, by rw [key]; rfl, by rw [key]; rfl⟩

/-- Witness for C2: authorized agent 3 withdraws 40 from account 2 which
holds 100, against an always-failing collaborator. -/
theorem withdraw_transferFailed_rollback_witness :
    withdraw (fun t => (false, t)) 3 2 40 demoState = .error .TransferFailed ∧
    applyResult (withdraw (fun t => (false, t)) 3 2 40 demoState) demoState
      = demoState ∧
    (applyResult (withdraw (fun t => (false, t)) 3 2 40 demoState)
      demoState).balances 2 = demoState.balances 2 ∧
    (applyResult (withdraw (fun t => (false, t)) 3 2 40 demoState)
      demoState).events = demoState.events :=
  withdraw_transferFailed_rollback (fun t => (false, t)) 3 2 40 demoState
    (Or.inr (by decide)) (by decide) (by decide) (by decide) rfl

/-- C3: a caller `c` that is not the current owner fails with
`Unauthorized` on `authorizeAgent`, `deauthorizeAgent` and
`transferOwnership` (even if `c` is an authorized agent — no agent
condition is assumed for those three), and if additionally
`authorizedAgents[c]` is false, `withdraw` also fails with `Unauthorized`;
in every case the committed state is unchanged. -/
theorem unauthorized_mutations_fail (s : LedgerState) (c : Account)
    (hown : c ≠ s.owner) :
    (∀ x, authorizeAgent c x s = .error .Unauthorized ∧
      applyResult (authorizeAgent c x s) s = s) ∧
    (∀ x, deauthorizeAgent c x s = .error .Unauthorized ∧
      applyResult (deauthorizeAgent c x s) s = s) ∧
    (∀ d, transferOwnership c d s = .error .Unauthorized ∧
      applyResult (transferOwnership c d s) s = s) ∧
    (s.authorizedAgents c = false →
      ∀ (ext : LedgerState → Bool × LedgerState) (account : Account) (amount : Nat),
        withdraw ext c account amount s = .error .Unauthorized ∧
        applyResult (withdraw ext c account amount s) s = s) := by
  refine ⟨fun x => ?_, fun x => ?_, fun d => ?_, fun hag ext account amount => ?_⟩
  · have key : authorizeAgent c x s = .error .Unauthorized := by
      simp only [authorizeAgent]
      rw [if_neg hown]
    exact ⟨key, by rw [key]; rfl⟩
  · have key : deauthorizeAgent c x s = .error .Unauthorized := by
      simp only [deauthorizeAgent]
      rw [if_neg hown]
    exact ⟨key, by rw [key]; rfl⟩
  · have key : transferOwnership c d s = .error .Unauthorized := by
      simp only [transferOwnership]
      rw [if_neg hown]
    exact ⟨key, by rw [key]; rfl⟩
  · have key := withdraw_unauthorized s c hown hag ext account amount
    exact ⟨key, by rw [key]; rfl⟩

/-- Witness for C3: account 4 (neither owner 1 nor an agent) is rejected
everywhere on the demo state. -/
theorem unauthorized_mutations_fail_witness :
    (∀ x, authorizeAgent 4 x demoState = .error .Unauthorized ∧
      applyResult (authorizeAgent 4 x demoState) demoState = demoState) ∧
    (∀ x, deauthorizeAgent 4 x demoState = .error .Unauthorized ∧
      applyResult (deauthorizeAgent 4 x demoState) demoState = demoState) ∧
    (∀ d, transferOwnership 4 d demoState = .error .Unauthorized ∧
      applyResult (transferOwnership 4 d demoState) demoState = demoState) ∧
    (demoState.authorizedAgents 4 = false →
      ∀ (ext : LedgerState → Bool × LedgerState) (account : Account) (amount : Nat),
        withdraw ext 4 account amount demoState = .error .Unauthorized ∧
        applyResult (withdraw ext 4 account amount demoState) demoState = demoState) :=
  unauthorized_mutations_fail demoState 4 (by decide)

/-- C4: for an authorized caller and guarded inputs there is a single
intermediate state — the pre-call state with `balances[account]` already
decremented by `amount` and nothing else changed — such that for EVERY
external collaborator, `withdraw` is exactly "consult the collaborator at
that state, then commit its result plus the `Withdrawal` event, or revert
on failure". The collaborator (hence any re-entrant call it makes) can
only ever observe the already-decremented balance, never the pre-decrement
one. -/
theorem withdraw_decrements_before_external_call
    (caller account : Account) (amount : Nat) (s : LedgerState)
    (hauth : caller = s.owner ∨ s.authorizedAgents caller = true)
    (hacc : account ≠ 0) (hpos : 0 < amount)
    (hle : amount ≤ s.balances account) :
    ∃ s1 : LedgerState,
      s1.balances account + amount = s.balances account ∧
      (∀ b, b ≠ account → s1.balances b = s.balances b) ∧
      s1.owner = s.owner ∧
      s1.authorizedAgents = s.authorizedAgents ∧
      s1.events = s.events ∧
      ∀ ext : LedgerState → Bool × LedgerState,
        withdraw ext caller account amount s =
          match ext s1 with
          | (false, _) => .error .TransferFailed
          | (true, s2) =>
              .ok { s2 with
                events := Event.Withdrawal account amount :: s2.events } := by
  refine ⟨{ s with
    balances := setBal s.balances account (s.balances account - amount) },
    ?_, ?_, rfl, rfl, rfl, fun ext => ?_⟩
  · show setBal s.balances account (s.balances account - amount) account + amount
      = s.balances account
    rw [setBal_same]
    omega
  · intro b hb
    exact setBal_other _ _ _ hb
  · exact withdraw_eq_match ext caller account amount s hauth (by omega) hacc
      (not_lt.mpr hle)

/-- Witness for C4: agent 3 withdraws 40 from account 2 on the demo
state. -/
theorem withdraw_decrements_before_external_call_witness :
    ∃ s1 : LedgerState,
      s1.balances 2 + 40 = demoState.balances 2 ∧
      (∀ b, b ≠ 2 → s1.balances b = demoState.balances b) ∧
      s1.owner = demoState.owner ∧
      s1.authorizedAgents = demoState.authorizedAgents ∧
      s1.events = demoState.events ∧
      ∀ ext : LedgerState → Bool × LedgerState,
        withdraw ext 3 2 40 demoState =
          match ext s1 with
          | (false, _) => .error .TransferFailed
          | (true, s2) =>
              .ok { s2 with events := Event.Withdrawal 2 40 :: s2.events } :=
  withdraw_decrements_before_external_call 3 2 40 demoState
    (Or.inr (by decide)) (by decide) (by decide) (by decide)

/-- C5: for an authorized caller and a non-null account: if the requested
amount exceeds the recorded balance, `withdraw` fails with
`InsufficientBalance` (for every collaborator) and the balance is
unchanged; if `0 < amount ≤ balance` and the external transfer succeeds,
`withdraw` succeeds, the balance drops by exactly `amount`, and a
`Withdrawal (account, amount)` record is emitted. -/
theorem withdraw_functional (caller account : Account) (amount : Nat)
    (s : LedgerState)
    (hauth : caller = s.owner ∨ s.authorizedAgents caller = true)
    (hacc : account ≠ 0) :
    (s.balances account < amount →
      (∀ ext : LedgerState → Bool × LedgerState,
        withdraw ext caller account amount s = .error .InsufficientBalance) ∧
      (∀ ext : LedgerState → Bool × LedgerState,
        (applyResult (withdraw ext caller account amount s) s).balances account
          = s.balances account)) ∧
    (0 < amount → amount ≤ s.balances account →
      withdraw (fun t => (true, t)) caller account amount s =
        .ok { s with
          balances := setBal s.balances account (s.balances account - amount)
          events := Event.Withdrawal account amount :: s.events } ∧
      (stepOp s (Op.withdraw caller account amount true)).balances account + amount
        = s.balances account ∧
      (stepOp s (Op.withdraw caller account amount true)).events
        = Event.Withdrawal account amount :: s.events) := by
  constructor
  · intro hlt
    have hm : amount ≠ 0 := by omega
    have key : ∀ ext : LedgerState → Bool × LedgerState,
        withdraw ext caller account amount s = .error .InsufficientBalance := by
      intro ext
      simp only [withdraw]
      rw [if_pos hauth, if_neg hm, if_neg hacc, if_pos hlt]
    exact ⟨key, fun ext => by rw [key ext]; rfl⟩
  · intro hpos hle
    have key := withdraw_ok caller account amount s hauth hacc hpos hle
    refine ⟨key, ?_, ?_⟩
    · show (applyResult (withdraw (fun t => (true, t)) caller account amount s)
        s).balances account + amount = s.balances account
      rw [key]
      show setBal s.balances account (s.balances account - amount) account + amount
        = s.balances account
      rw [setBal_same]
      omega
    · show (applyResult (withdraw (fun t => (true, t)) caller account amount s)
        s).events = Event.Withdrawal account amount :: s.events
      rw [key]
      rfl

/-- Witness for C5: the spec scenario on the demo state — the owner's
over-withdraw of 1000 from account 2 fails `InsufficientBalance`, and
agent 3's withdraw of 40 succeeds and leaves 60. -/
theorem withdraw_functional_witness :
    ((demoState.balances 2 < 1000 →
      (∀ ext : LedgerState → Bool × LedgerState,
        withdraw ext 1 2 1000 demoState = .error .InsufficientBalance) ∧
      (∀ ext : LedgerState → Bool × LedgerState,
        (applyResult (withdraw ext 1 2 1000 demoState) demoState).balances 2
          = demoState.balances 2)) ∧
    (0 < 1000 → 1000 ≤ demoState.balances 2 →
      withdraw (fun t => (true, t)) 1 2 1000 demoState =
        .ok { demoState with
          balances := setBal demoState.balances 2 (demoState.balances 2 - 1000)
          events := Event.Withdrawal 2 1000 :: demoState.events } ∧
      (stepOp demoState (Op.withdraw 1 2 1000 true)).balances 2 + 1000
        = demoState.balances 2 ∧
      (stepOp demoState (Op.withdraw 1 2 1000 true)).events
        = Event.Withdrawal 2 1000 :: demoState.events)) ∧
    (stepOp demoState (Op.withdraw 3 2 40 true)).balances 2 = 60 :=
  ⟨withdraw_functional 1 2 1000 demoState (Or.inl (by decide)) (by decide),
    by decide⟩

/-- C6 counterexample: after one legitimate deposit filling account 2 up
to the `uint256` maximum, a further `deposit(2, 1)` — with a non-null
account and a strictly positive amount, exactly the claim's premises —
does NOT succeed: Solidity ^0.8 checked arithmetic aborts the call with an
overflow panic. So "for every amount m > 0, deposit succeeds" is false as
stated. -/
theorem deposit_claim_counterexample :
    (2 : Account) ≠ 0 ∧ (0 : Nat) < 1 ∧
    (stepOp (initState 1) (Op.deposit 2 U256MAX)).balances 2 = U256MAX ∧
    deposit 2 1 (stepOp (initState 1) (Op.deposit 2 U256MAX))
      = .error .Overflow :=
  ⟨by decide, by decide, rfl, rfl⟩

/-- C6 (amended): for every caller (no authorization check), non-null
account and amount `m > 0`, PROVIDED the new balance does not exceed the
`uint256` maximum, `deposit` succeeds, increases `balances[account]` by
exactly `m`, leaves every other balance, the owner and the agent set
unchanged, and emits a `Deposit (account, m)` record; `deposit` fails with
`InvalidArgument`, state unchanged, if the account is the null identity or
`m = 0` (and with a checked-arithmetic overflow abort past the maximum,
cf. C10). -/
theorem deposit_functional (account : Account) (amount : Nat) (s : LedgerState) :
    (account ≠ 0 → 0 < amount → s.balances account + amount ≤ U256MAX →
      deposit account amount s =
        .ok { s with
          balances := setBal s.balances account (s.balances account + amount)
          events := Event.Deposit account amount :: s.events } ∧
      (stepOp s (Op.deposit account amount)).balances account
        = s.balances account + amount ∧
      (∀ b, b ≠ account →
        (stepOp s (Op.deposit account amount)).balances b = s.balances b) ∧
      (stepOp s (Op.deposit account amount)).owner = s.owner ∧
      (stepOp s (Op.deposit account amount)).authorizedAgents
        = s.authorizedAgents ∧
      (stepOp s (Op.deposit account amount)).events
        = Event.Deposit account amount :: s.events) ∧
    (amount = 0 →
      deposit account amount s = .error .InvalidArgument ∧
      applyResult (deposit account amount s) s = s) ∧
    (account = 0 → 0 < amount →
      deposit account amount s = .error .InvalidArgument ∧
      applyResult (deposit account amount s) s = s) := by
  refine ⟨fun hacc hpos hbound => ?_, fun hm => ?_, fun hacc hpos => ?_⟩
  · have key : deposit account amount s =
        .ok { s with
          balances := setBal s.balances account (s.balances account + amount)
          events := Event.Deposit account amount :: s.events } := by
      simp only [deposit]
      rw [if_neg (by omega : ¬ amount = 0), if_neg hacc,
        if_neg (not_lt.mpr hbound)]
    refine ⟨key, ?_, fun b hb => ?_, ?_, ?_, ?_⟩
    · show (applyResult (deposit account amount s) s).balances account
        = s.balances account + amount
      rw [key]
      exact setBal_same _ _ _
    · show (applyResult (deposit account amount s) s).balances b = s.balances b
      rw [key]
      exact setBal_other _ _ _ hb
    · show (applyResult (deposit account amount s) s).owner = s.owner
      rw [key]
      rfl
    · show (applyResult (deposit account amount s) s).authorizedAgents
        = s.authorizedAgents
      rw [key]
      rfl
    · show (applyResult (deposit account amount s) s).events
        = Event.Deposit account amount :: s.events
      rw [key]
      rfl
  · have key : deposit account amount s = .error .InvalidArgument := by
      simp only [deposit]
      rw [if_pos hm]
    exact ⟨key, by rw [key]; rfl⟩
  · have key : deposit account amount s = .error .InvalidArgument := by
      simp only [deposit]
      rw [if_neg (by omega : ¬ amount = 0), if_pos hacc]
    exact ⟨key, by rw [key]; rfl⟩

/-- Witness for C6 (amended): deposit 100 to account 2 from the initial
state. -/
theorem deposit_functional_witness :
    ((2 : Account) ≠ 0 → 0 < 100 → (initState 1).balances 2 + 100 ≤ U256MAX →
      deposit 2 100 (initState 1) =
        .ok { initState 1 with
          balances := setBal (initState 1).balances 2 ((initState 1).balances 2 + 100)
          events := Event.Deposit 2 100 :: (initState 1).events } ∧
      (stepOp (initState 1) (Op.deposit 2 100)).balances 2
        = (initState 1).balances 2 + 100 ∧
      (∀ b, b ≠ 2 →
        (stepOp (initState 1) (Op.deposit 2 100)).balances b
          = (initState 1).balances b) ∧
      (stepOp (initState 1) (Op.deposit 2 100)).owner = (initState 1).owner ∧
      (stepOp (initState 1) (Op.deposit 2 100)).authorizedAgents
        = (initState 1).authorizedAgents ∧
      (stepOp (initState 1) (Op.deposit 2 100)).events
        = Event.Deposit 2 100 :: (initState 1).events) ∧
    ((100 : Nat) = 0 →
      deposit 2 100 (initState 1) = .error .InvalidArgument ∧
      applyResult (deposit 2 100 (initState 1)) (initState 1) = initState 1) ∧
    ((2 : Account) = 0 → 0 < 100 →
      deposit 2 100 (initState 1) = .error .InvalidArgument ∧
      applyResult (deposit 2 100 (initState 1)) (initState 1) = initState 1) :=
  deposit_functional 2 100 (initState 1)

/-- C7: re-authorizing an agent is idempotent — with the owner as caller
and a non-null agent `x`, the first `authorizeAgent` succeeds and sets
`authorizedAgents[x]`, and the second succeeds as well, changes neither
the owner, the balances nor the agent set relative to the state after the
first call, and each call emits one `AgentAuthorized x` record. -/
theorem authorizeAgent_idempotent (s : LedgerState) (x : Account)
    (hx : x ≠ 0) :
    ∃ s1 s2 : LedgerState,
      authorizeAgent s.owner x s = .ok s1 ∧
      authorizeAgent s1.owner x s1 = .ok s2 ∧
      s1.authorizedAgents x = true ∧
      s2.authorizedAgents x = true ∧
      s2.owner = s1.owner ∧
      s2.balances = s1.balances ∧
      s2.authorizedAgents = s1.authorizedAgents ∧
      s1.events = Event.AgentAuthorized x :: s.events ∧
      s2.events = Event.AgentAuthorized x :: s1.events := by
  have step : ∀ t : LedgerState, authorizeAgent t.owner x t =
      .ok { t with
        authorizedAgents := setAgent t.authorizedAgents x true
        events := Event.AgentAuthorized x :: t.events } := fun t => by
    simp [authorizeAgent, hx]
  refine ⟨_, _, step s, step _, ?_, ?_, rfl, rfl, ?_, rfl, rfl⟩
  · show setAgent s.authorizedAgents x true x = true
    simp [setAgent]
  · show setAgent (setAgent s.authorizedAgents x true) x true x = true
    simp [setAgent]
  · show setAgent (setAgent s.authorizedAgents x true) x true
      = setAgent s.authorizedAgents x true
    funext b
    by_cases hb : b = x <;> simp [setAgent, hb]

/-- Witness for C7: the owner re-authorizes agent 3 on the demo state. -/
theorem authorizeAgent_idempotent_witness :
    ∃ s1 s2 : LedgerState,
      authorizeAgent demoState.owner 3 demoState = .ok s1 ∧
      authorizeAgent s1.owner 3 s1 = .ok s2 ∧
      s1.authorizedAgents 3 = true ∧
      s2.authorizedAgents 3 = true ∧
      s2.owner = s1.owner ∧
      s2.balances = s1.balances ∧
      s2.authorizedAgents = s1.authorizedAgents ∧
      s1.events = Event.AgentAuthorized 3 :: demoState.events ∧
      s2.events = Event.AgentAuthorized 3 :: s1.events :=
  authorizeAgent_idempotent demoState 3 (by decide)

/-- C8: the current owner transferring ownership to a non-null `d`
succeeds and afterwards `getOwner` is `d`; every caller other than `d`
(in particular the old owner, when different from `d`) then fails
`Unauthorized` on the owner-only calls, and `d` can authorize agents;
transferring to the null identity fails with `InvalidArgument`. -/
theorem transferOwnership_functional (s : LedgerState) (d : Account) :
    (d ≠ 0 → ∃ s' : LedgerState,
      transferOwnership s.owner d s = .ok s' ∧
      getOwner s' = d ∧
      (∀ c, c ≠ d →
        (∀ x, authorizeAgent c x s' = .error .Unauthorized) ∧
        (∀ x, deauthorizeAgent c x s' = .error .Unauthorized) ∧
        (∀ e, transferOwnership c e s' = .error .Unauthorized)) ∧
      (∀ x, x ≠ 0 → ∃ s'' : LedgerState,
        authorizeAgent d x s' = .ok s'' ∧ s''.authorizedAgents x = true)) ∧
    (d = 0 → transferOwnership s.owner d s = .error .InvalidArgument) := by
  constructor
  · intro hd
    have key : transferOwnership s.owner d s = .ok { s with owner := d } := by
      simp [transferOwnership, hd]
    refine ⟨{ s with owner := d }, key, rfl, fun c hc => ?_, fun x hx => ?_⟩
    · have hc' : c ≠ ({ s with owner := d } : LedgerState).owner := hc
      refine ⟨fun x => ?_, fun x => ?_, fun e => ?_⟩
      · simp only [authorizeAgent]
        rw [if_neg hc']
      · simp only [deauthorizeAgent]
        rw [if_neg hc']
      · simp only [transferOwnership]
        rw [if_neg hc']
    · have key2 : authorizeAgent d x { s with owner := d } =
          .ok { s with
                owner := d
                authorizedAgents := setAgent s.authorizedAgents x true
                events := Event.AgentAuthorized x :: s.events } := by
        simp [authorizeAgent, hx]
      exact ⟨_, key2, by show setAgent s.authorizedAgents x true x = true; simp [setAgent]⟩
  · intro hd
    subst hd
    simp [transferOwnership]

/-- Witness for C8: the owner hands the demo-state ledger to account 5. -/
theorem transferOwnership_functional_witness :
    ((5 : Account) ≠ 0 → ∃ s' : LedgerState,
      transferOwnership demoState.owner 5 demoState = .ok s' ∧
      getOwner s' = 5 ∧
      (∀ c, c ≠ 5 →
        (∀ x, authorizeAgent c x s' = .error .Unauthorized) ∧
        (∀ x, deauthorizeAgent c x s' = .error .Unauthorized) ∧
        (∀ e, transferOwnership c e s' = .error .Unauthorized)) ∧
      (∀ x, x ≠ 0 → ∃ s'' : LedgerState,
        authorizeAgent 5 x s' = .ok s'' ∧ s''.authorizedAgents x = true)) ∧
    ((5 : Account) = 0 →
      transferOwnership demoState.owner 5 demoState = .error .InvalidArgument) :=
  transferOwnership_functional demoState 5

/-- C9: a successful `transferOwnership` modifies only the owner field —
balances, agent set and event log are untouched; every previously
authorized agent can still withdraw afterwards, and the previous owner
(when distinct from the new one and not separately an agent) has lost
withdraw rights. -/
theorem transferOwnership_frame (s : LedgerState) (d : Account) (hd : d ≠ 0) :
    ∃ s' : LedgerState,
      transferOwnership s.owner d s = .ok s' ∧
      s'.owner = d ∧
      s'.balances = s.balances ∧
      s'.authorizedAgents = s.authorizedAgents ∧
      s'.events = s.events ∧
      (∀ x, s.authorizedAgents x = true →
        ∀ (account : Account) (amount : Nat),
          account ≠ 0 → 0 < amount → amount ≤ s'.balances account →
          withdraw (fun t => (true, t)) x account amount s' =
            .ok { s' with
              balances := setBal s'.balances account (s'.balances account - amount)
              events := Event.Withdrawal account amount :: s'.events }) ∧
      (s.owner ≠ d → s.authorizedAgents s.owner = false →
        ∀ (ext : LedgerState → Bool × LedgerState) (account : Account)
          (amount : Nat),
          withdraw ext s.owner account amount s' = .error .Unauthorized) := by
  have key : transferOwnership s.owner d s = .ok { s with owner := d } := by
    simp [transferOwnership, hd]
  refine ⟨{ s with owner := d }, key, rfl, rfl, rfl, rfl,
    fun x hx account amount hacc hpos hle => ?_, fun hod hag ext account amount => ?_⟩
  · exact withdraw_ok x account amount { s with owner := d } (Or.inr hx) hacc
      hpos hle
  · exact withdraw_unauthorized { s with owner := d } s.owner hod hag ext
      account amount

/-- Witness for C9: ownership of the demo state moves from 1 to 5; agent
3 keeps its rights, the old owner 1 loses withdraw access. -/
theorem transferOwnership_frame_witness :
    ∃ s' : LedgerState,
      transferOwnership demoState.owner 5 demoState = .ok s' ∧
      s'.owner = 5 ∧
      s'.balances = demoState.balances ∧
      s'.authorizedAgents = demoState.authorizedAgents ∧
      s'.events = demoState.events ∧
      (∀ x, demoState.authorizedAgents x = true →
        ∀ (account : Account) (amount : Nat),
          account ≠ 0 → 0 < amount → amount ≤ s'.balances account →
          withdraw (fun t => (true, t)) x account amount s' =
            .ok { s' with
              balances := setBal s'.balances account (s'.balances account - amount)
              events := Event.Withdrawal account amount :: s'.events }) ∧
      (demoState.owner ≠ 5 → demoState.authorizedAgents demoState.owner = false →
        ∀ (ext : LedgerState → Bool × LedgerState) (account : Account)
          (amount : Nat),
          withdraw ext demoState.owner account amount s' = .error .Unauthorized) :=
  transferOwnership_frame demoState 5 (by decide)

/-- C10: `deposit` never wraps modulo `2 ^ 256` — whenever the new balance
would exceed the `uint256` maximum the call fails (with the
checked-arithmetic `Overflow` abort in the interesting case of a non-null
account and positive amount) and the committed state, in particular the
target balance, is exactly the pre-call state: no wrapped-around smaller
balance is ever stored. -/
theorem deposit_no_wraparound (account : Account) (amount : Nat)
    (s : LedgerState) (hov : U256MAX < s.balances account + amount) :
    (∃ e : WErr, deposit account amount s = .error e) ∧
    (account ≠ 0 → 0 < amount →
      deposit account amount s = .error .Overflow) ∧
    applyResult (deposit account amount s) s = s ∧
    (stepOp s (Op.deposit account amount)).balances account
      = s.balances account := by
  have main : deposit account amount s = .error .Overflow ∨
      deposit account amount s = .error .InvalidArgument := by
    by_cases hm : amount = 0
    · right
      simp [deposit, hm]
    by_cases hacc : account = 0
    · right
      simp [deposit, hm, hacc]
    · left
      simp only [deposit]
      rw [if_neg hm, if_neg hacc, if_pos hov]
  have unchanged : applyResult (deposit account amount s) s = s := by
    rcases main with h | h <;> rw [h] <;> rfl
  refine ⟨?_, fun hacc hpos => ?_, unchanged, ?_⟩
  · rcases main with h | h
    · exact ⟨.Overflow, h⟩
    · exact ⟨.InvalidArgument, h⟩
  · simp only [deposit]
    rw [if_neg (by omega : ¬ amount = 0), if_neg hacc, if_pos hov]
  · show (applyResult (deposit account amount s) s).balances account
      = s.balances account
    rw [unchanged]

/-- Witness for C10: account 2 already holds the `uint256` maximum (after
one legitimate deposit); depositing 1 more aborts and leaves the balance
at the maximum. -/
theorem deposit_no_wraparound_witness :
    (∃ e : WErr,
      deposit 2 1 (stepOp (initState 1) (Op.deposit 2 U256MAX)) = .error e) ∧
    ((2 : Account) ≠ 0 → 0 < 1 →
      deposit 2 1 (stepOp (initState 1) (Op.deposit 2 U256MAX))
        = .error .Overflow) ∧
    applyResult (deposit 2 1 (stepOp (initState 1) (Op.deposit 2 U256MAX)))
        (stepOp (initState 1) (Op.deposit 2 U256MAX))
      = stepOp (initState 1) (Op.deposit 2 U256MAX) ∧
    (stepOp (stepOp (initState 1) (Op.deposit 2 U256MAX)) (Op.deposit 2 1)).balances 2
      = (stepOp (initState 1) (Op.deposit 2 U256MAX)).balances 2 :=
  deposit_no_wraparound 2 1 (stepOp (initState 1) (Op.deposit 2 U256MAX))
    (Nat.lt_succ_self U256MAX)

end AIWalletManager
